import Mathlib

/-!
Verification development for the evaluation harness of the
tackle-container-advisor entity standardizer
(`aca_entity_standardizer/run_tests.py`).

The Python functions are shallowly embedded as Lean definitions:

* mutable Python dicts become association lists (`List (String × _)`)
  with insertion-ordered, overwrite-on-existing-key semantics;
* raised Python exceptions (ZeroDivisionError, KeyError, IndexError)
  become `Except String` errors;
* the remote backends become explicit parameters: the Wikidata
  autocomplete backend is a pure oracle `api : String → List String`
  (the value of `invoke_wikidata_api`, which already absorbs transport
  failures into an empty list), and the entity-linking response is an
  `Option` (`none` models a transport failure caught by the
  `try/except` in `run_entity_linking`).
-/

namespace RunTests

/-- Accuracy tally `topk = (0, 0, 0, 0, 0)` from `get_topk_accuracy`:
top-1, top-3, top-5, top-10 and top-inf hit counters. -/
structure Tally where
  top1 : Nat
  top3 : Nat
  top5 : Nat
  top10 : Nat
  topInf : Nat
deriving DecidableEq, Repr

/-- Counter updates performed by `get_topk_accuracy` when the correct
qid is first found at 0-based rank `i`: top-inf is always incremented,
then top-1 when `i <= 0`, top-3 when `i <= 2`, top-5 when `i <= 4`,
top-10 when `i <= 9` (lines 192-200 of run_tests.py). -/
def tallyAtRank (i : Nat) (t : Tally) : Tally :=
  let t := { t with topInf := t.topInf + 1 }
  let t := if i ≤ 0 then { t with top1 := t.top1 + 1 } else t
  let t := if i ≤ 2 then { t with top3 := t.top3 + 1 } else t
  let t := if i ≤ 4 then { t with top5 := t.top5 + 1 } else t
  let t := if i ≤ 9 then { t with top10 := t.top10 + 1 } else t
  t

/-- Inner loop `for i, qid in enumerate(qids): if qid == correct_qid: ...; break`
of `get_topk_accuracy`: scan the ranked list, update the tally at the
first match and stop. `i` is the enumeration index of the list head. -/
def scoreLoop (correct : String) : List String → Nat → Tally → Tally
  | [], _, t => t
  | q :: qs, i, t => if q == correct then tallyAtRank i t else scoreLoop correct qs (i + 1) t

/-- Per-mention body of the `for mention in data_to_qid` loop of
`get_topk_accuracy`: `qids = alg_qids.get(mention, None); if not qids: continue`
(Python `not` is true for both `None` and the empty list), then the scan. -/
def mentionStep (alg_qids : List (String × List String)) (t : Tally)
    (p : String × String) : Tally :=
  match List.lookup p.1 alg_qids with
  | none => t
  | some qids => if qids = [] then t else scoreLoop p.2 qids 0 t

/-- Counter pass of `get_topk_accuracy` over all mentions of the
correct-label map `data_to_qid`, starting from `(0, 0, 0, 0, 0)`. -/
def getTopkCounts (data_to_qid : List (String × String))
    (alg_qids : List (String × List String)) : Tally :=
  data_to_qid.foldl (mentionStep alg_qids) ⟨0, 0, 0, 0, 0⟩

/-- Five accuracy ratios printed by `get_topk_accuracy`. -/
abbrev Report := ℚ × ℚ × ℚ × ℚ × ℚ

/-- Embedding of `get_topk_accuracy`: `total_mentions = len(data_to_qid)`,
the counter pass, then the five ratios `topk[j]/total_mentions` of the
final print statement. A zero `total_mentions` makes each Python
division raise, modelled as an error result. -/
def getTopkAccuracy (data_to_qid : List (String × String))
    (alg_qids : List (String × List String)) : Except String Report :=
  let total := data_to_qid.length
  let t := getTopkCounts data_to_qid alg_qids
  if total = 0 then Except.error "ZeroDivisionError"
  else Except.ok ((t.top1 : ℚ) / total, (t.top3 : ℚ) / total, (t.top5 : ℚ) / total,
    (t.top10 : ℚ) / total, (t.topInf : ℚ) / total)

/-- Nestedness of the five accuracy buckets: each counter is at most
the next broader one. -/
def TallyMono (t : Tally) : Prop :=
  t.top1 ≤ t.top3 ∧ t.top3 ≤ t.top5 ∧ t.top5 ≤ t.top10 ∧ t.top10 ≤ t.topInf

/-- Python `data.split(' ')` on the character list: split on every single
space, keeping empty fragments for leading, trailing or doubled spaces
(`''.split(' ') == ['']`). `acc` is the current fragment, reversed. -/
def splitSpAux : List Char → List Char → List String
  | [], acc => [String.mk acc.reverse]
  | c :: cs, acc =>
    if c = ' ' then String.mk acc.reverse :: splitSpAux cs []
    else splitSpAux cs (c :: acc)

/-- Embedding of Python `data.split(' ')` used by `get_wikidata_qids`. -/
def splitSp (s : String) : List String := splitSpAux s.toList []

/-- Embedding of Python `' '.join(data)`. -/
def joinSp (data : List String) : String := String.intercalate " " data

/-- Embedding of `get_data_combinations`: the full joined phrase, then
`' '.join(data[:-i])` for `i in range(1, len(data))`, then
`' '.join(data[i:])` for the same range (`data[:-i]` is the first
`len(data) - i` tokens). -/
def getDataCombinations (data : List String) : List String :=
  let combinations := [joinSp data]
  let combinations := (List.range' 1 (data.length - 1)).foldl
    (fun c i => c ++ [joinSp (data.take (data.length - i))]) combinations
  let combinations := (List.range' 1 (data.length - 1)).foldl
    (fun c i => c ++ [joinSp (data.drop i)]) combinations
  combinations

/-- Python dict assignment `d[k] = v` on an insertion-ordered
association list: overwrite the binding in place when the key exists
(Python dicts keep a single binding per key, at its original
position), otherwise append the new binding at the end. -/
def dictInsert {β : Type} (k : String) (v : β) :
    List (String × β) → List (String × β)
  | [] => [(k, v)]
  | p :: d => if p.1 == k then (p.1, v) :: d else p :: dictInsert k v d

/-- Combined effect of `el_qids[mention] = el_qids.get(mention, [])`
followed by appending each extracted qid: extend the existing value in
place, or append a fresh binding holding exactly the new qids. -/
def dictAppend (k : String) (vs : List String) :
    List (String × List String) → List (String × List String)
  | [] => [(k, vs)]
  | p :: d => if p.1 == k then (p.1, p.2 ++ vs) :: d else p :: dictAppend k vs d

/-- Stable insertion of one binding into a list already ascending by
candidate-list length: slide past every earlier binding whose list is
not longer, so equal lengths keep their original order. -/
def insertByLen (x : String × List String) :
    List (String × List String) → List (String × List String)
  | [] => [x]
  | y :: ys => if y.2.length ≤ x.2.length then y :: insertByLen x ys else x :: y :: ys

/-- Embedding of `sorted(data_to_qids.items(), key=lambda item: len(item[1]))`:
a stable sort of the fragment dict ascending by number of candidates. -/
def sortByValLen : List (String × List String) → List (String × List String)
  | [] => []
  | x :: xs => insertByLen x (sortByValLen xs)

/-- Loop body of the valid-fragment pass of `get_wikidata_qids`
(`for i, frag in enumerate(fragments): frqids = invoke_wikidata_api(frag);
if frqids: data_to_qids[frag] = frqids`), threading the dict `d`. -/
def fragDictAux (api : String → List String) :
    List String → List (String × List String) → List (String × List String)
  | [], d => d
  | frag :: fs, d =>
    let frqids := api frag
    fragDictAux api fs (if frqids ≠ [] then dictInsert frag frqids d else d)

/-- The valid-fragment dict of `get_wikidata_qids`
(`data_to_qids[frag] = frqids` for every fragment whose query returned
at least one candidate, lines 129-133 of run_tests.py). -/
def fragDict (api : String → List String) (fragments : List String) :
    List (String × List String) :=
  fragDictAux api fragments []

/-- Candidate list assembled by `get_wikidata_qids` for one mention,
with the autocomplete backend as a pure oracle `api` (the value of
`invoke_wikidata_api`, which already turns transport failures and
unsuccessful responses into an empty list): exact-phrase candidates,
then candidates of every combination of all fragments, then candidates
of every combination of the valid fragments sorted ascending by
candidate count. -/
def wikidataCandidates (api : String → List String) (data : String) : List String :=
  let qids := api data
  let fragments := splitSp data
  let data_to_qids := fragDict api fragments
  let combinations := getDataCombinations fragments
  let qids := combinations.foldl (fun q comb => q ++ api comb) qids
  let data_to_qids := sortByValLen data_to_qids
  let valid_data := data_to_qids.map (fun p => p.1)
  let combinations := getDataCombinations valid_data
  let qids := combinations.foldl (fun q comb => q ++ api comb) qids
  qids

/-- Embedding of `get_wikidata_qids`: the assembled candidate list,
returned as the one-entry dict `{data: qids}`. -/
def getWikidataQids (api : String → List String) (data : String) :
    List (String × List String) :=
  [(data, wikidataCandidates api data)]

/-- Embedding of `run_wikidata_autocomplete`: map `get_wikidata_qids`
over the mention keys (the worker pool), then merge the one-entry
result dicts with `{k: v for item in wd_results for k, v in item.items()}`. -/
def runWikidataAutocomplete (api : String → List String)
    (data_to_qid : List (String × String)) : List (String × List String) :=
  let wd_results := (data_to_qid.map (fun p => p.1)).map (getWikidataQids api)
  wd_results.foldl (fun acc item => item.foldl (fun acc2 p => dictInsert p.1 p.2 acc2) acc) []

/-- Decoded entity-linking response: per record id (the stringified
enumeration index), the `eval`-decoded `top_k_entities` list of
(score, qid) pairs. -/
abbrev ELResponse := List (String × List (ℚ × String))

/-- The `id_to_data[str(i)] = (data, qid)` map built by
`run_entity_linking` while assembling the payload. -/
def idToData (data_to_qid : List (String × String)) :
    List (String × (String × String)) :=
  data_to_qid.enum.map (fun p => (toString p.1, (p.2.1, p.2.2)))

/-- Embedding of `run_entity_linking`. A transport failure
(`response = none`) is caught by the `try/except` and yields the empty
`el_qids` map. On a response, each record id is looked up in
`id_to_data` — an unknown id raises a KeyError, since that code is
outside the `try` — and the second component of each decoded pair is
appended to the mention's candidate list. -/
def runEntityLinking (data_to_qid : List (String × String))
    (response : Option ELResponse) : Except String (List (String × List String)) :=
  match response with
  | none => Except.ok []
  | some candidates =>
    candidates.foldlM (fun el_qids entry =>
      match List.lookup entry.1 (idToData data_to_qid) with
      | none => Except.error "KeyError"
      | some md => Except.ok (dictAppend md.1 (entry.2.map (fun c => c.2)) el_qids)) []

/-- Final diagnostic loop of `run_zero_shot`
(`for data, qid in data_to_qid.items(): if qid in elctx_qids[data] and qid not in wd_qids[data]`):
a plain `dict[key]` access that raises a KeyError when a mention is
absent, with Python's short-circuit `and` (the `wd_qids[data]` access
only happens when the first membership test succeeds). -/
def zsDiagLoop (data_to_qid : List (String × String))
    (elctx_qids wd_qids : List (String × List String)) : Except String Unit :=
  data_to_qid.foldlM (fun _ p =>
    match List.lookup p.1 elctx_qids with
    | none => Except.error "KeyError"
    | some l =>
      if p.2 ∈ l then
        match List.lookup p.1 wd_qids with
        | none => Except.error "KeyError"
        | some _ => Except.ok ()
      else Except.ok ()) ()

/-- Embedding of the strategy-evaluation part of `run_zero_shot` (after
the test file is loaded into `data_to_qid`): entity linking without
context, wikidata autocomplete, entity linking with context, each
scored by `get_topk_accuracy`, then the final diagnostic loop. The
result collects the three printed accuracy reports. -/
def runZeroShot (data_to_qid : List (String × String))
    (elResp elctxResp : Option ELResponse) (api : String → List String) :
    Except String (Report × Report × Report) := do
  let el_qids ← runEntityLinking data_to_qid elResp
  let r1 ← getTopkAccuracy data_to_qid el_qids
  let wd_qids := runWikidataAutocomplete api data_to_qid
  let r2 ← getTopkAccuracy data_to_qid wd_qids
  let elctx_qids ← runEntityLinking data_to_qid elctxResp
  let r3 ← getTopkAccuracy data_to_qid elctx_qids
  let _ ← zsDiagLoop data_to_qid elctx_qids wd_qids
  return (r1, r2, r3)

/-- Embedding of the scoring part of `run_few_shot`: the mentions are
the keys of `data_to_eid`, `tech_sim_scores` is the local
standardizer's per-mention ranked list of entity names, and
`entity_to_eid` the catalog name-to-identifier table. The loop zips
mentions with predictions, takes `entity[0]` (an IndexError on an empty
list), translates both sides through their maps, and increments
`num_correct` whenever `correct_eid != predicted_eid`; the report then
divides `num_correct` by the mention count. -/
def runFewShotAccuracy (data_to_eid : List (String × String))
    (entity_to_eid : List (String × String)) (tech_sim_scores : List (List String)) :
    Except String ℚ := do
  let mentions := data_to_eid.map (fun p => p.1)
  let num_correct ← (mentions.zip tech_sim_scores).foldlM (fun n p =>
    match p.2 with
    | [] => Except.error "IndexError"
    | entity0 :: _ =>
      let correct_eid := List.lookup p.1 data_to_eid
      let predicted_eid := List.lookup entity0 entity_to_eid
      Except.ok (if correct_eid ≠ predicted_eid then n + 1 else n)) (0 : Nat)
  if mentions.length = 0 then Except.error "ZeroDivisionError"
  else Except.ok ((num_correct : ℚ) / (mentions.length : ℚ))

/-- Modelled from the spec, for comparison with `runFewShotAccuracy`:
the number of mentions whose predicted entity name, translated through
the name-to-identifier table, yields exactly the correct catalog
identifier; a predicted name absent from the table is no candidate and
never a hit. -/
def specFewShotHits (data_to_eid : List (String × String))
    (entity_to_eid : List (String × String)) (tech_sim_scores : List (List String)) : Nat :=
  ((data_to_eid.map (fun p => p.1)).zip tech_sim_scores).countP (fun p =>
    match p.2 with
    | [] => false
    | entity0 :: _ =>
      match List.lookup entity0 entity_to_eid with
      | none => false
      | some eid => List.lookup p.1 data_to_eid == some eid)

/-! Lemmas about the scoring loop. -/

theorem tallyAtRank_eq (i : Nat) (t : Tally) :
    tallyAtRank i t =
      ⟨t.top1 + if i ≤ 0 then 1 else 0, t.top3 + if i ≤ 2 then 1 else 0,
       t.top5 + if i ≤ 4 then 1 else 0, t.top10 + if i ≤ 9 then 1 else 0,
       t.topInf + 1⟩ := by
  obtain ⟨a, b, c, d, e⟩ := t
  simp only [tallyAtRank]
  split_ifs <;> rfl

theorem scoreLoop_eq_findIdx (c : String) :
    ∀ (qs : List String) (i : Nat) (t : Tally),
      scoreLoop c qs i t =
        match List.findIdx? (fun q => q == c) qs i with
        | none => t
        | some j => tallyAtRank j t
  | [], _, _ => rfl
  | q :: qs, i, t => by
    simp only [scoreLoop, List.findIdx?_cons]
    by_cases h : (q == c) = true
    · simp [h]
    · simp only [h, if_false, Bool.false_eq_true]
      exact scoreLoop_eq_findIdx c qs (i + 1) t

theorem tallyAtRank_mono (i : Nat) (t : Tally) (h : TallyMono t) :
    TallyMono (tallyAtRank i t) := by
  obtain ⟨h1, h2, h3, h4⟩ := h
  simp only [TallyMono, tallyAtRank_eq]
  split_ifs <;> simp_all <;> omega

theorem scoreLoop_mono (c : String) (qs : List String) (i : Nat) (t : Tally)
    (h : TallyMono t) : TallyMono (scoreLoop c qs i t) := by
  rw [scoreLoop_eq_findIdx]
  cases List.findIdx? (fun q => q == c) qs i with
  | none => exact h
  | some j => exact tallyAtRank_mono j t h

theorem mentionStep_mono (alg_qids : List (String × List String)) (t : Tally)
    (p : String × String) (h : TallyMono t) : TallyMono (mentionStep alg_qids t p) := by
  unfold mentionStep
  cases List.lookup p.1 alg_qids with
  | none => exact h
  | some qids =>
    by_cases hq : qids = []
    · simp [hq, h]
    · simp only [hq, if_false]
      exact scoreLoop_mono p.2 qids 0 t h

theorem foldl_mentionStep_mono (alg_qids : List (String × List String)) :
    ∀ (l : List (String × String)) (t : Tally), TallyMono t →
      TallyMono (l.foldl (mentionStep alg_qids) t)
  | [], _, h => h
  | p :: l, t, h =>
    foldl_mentionStep_mono alg_qids l (mentionStep alg_qids t p)
      (mentionStep_mono alg_qids t p h)

/-! Claims on the accuracy scorer. -/

/-- C8: for every correct-label map and predicted map, the five
counters produced by `get_topk_accuracy` satisfy
top-1 ≤ top-3 ≤ top-5 ≤ top-10 ≤ top-inf. -/
theorem getTopkCounts_monotone (data_to_qid : List (String × String))
    (alg_qids : List (String × List String)) :
    (getTopkCounts data_to_qid alg_qids).top1 ≤ (getTopkCounts data_to_qid alg_qids).top3 ∧
    (getTopkCounts data_to_qid alg_qids).top3 ≤ (getTopkCounts data_to_qid alg_qids).top5 ∧
    (getTopkCounts data_to_qid alg_qids).top5 ≤ (getTopkCounts data_to_qid alg_qids).top10 ∧
    (getTopkCounts data_to_qid alg_qids).top10 ≤ (getTopkCounts data_to_qid alg_qids).topInf :=
  foldl_mentionStep_mono alg_qids data_to_qid ⟨0, 0, 0, 0, 0⟩
    ⟨Nat.le_refl 0, Nat.le_refl 0, Nat.le_refl 0, Nat.le_refl 0⟩

/-- C2: a mention scored by `get_topk_accuracy` with a non-empty
predicted list is scanned up to the first index `i` whose candidate
equals the correct identifier, and exactly these counters grow by one:
top-inf always, top-1 iff `i ≤ 0`, top-3 iff `i ≤ 2`, top-5 iff
`i ≤ 4`, top-10 iff `i ≤ 9`; when the correct identifier never occurs
no counter changes, and the tally depends only on the first-occurrence
index, so duplicates after it have no effect. -/
theorem mentionStep_first_match (alg_qids : List (String × List String))
    (m c : String) (t : Tally) (qids : List String)
    (hq : List.lookup m alg_qids = some qids) (hne : qids ≠ []) :
    (∀ i, List.findIdx? (fun q => q == c) qids = some i →
      mentionStep alg_qids t (m, c) =
        ⟨t.top1 + if i ≤ 0 then 1 else 0, t.top3 + if i ≤ 2 then 1 else 0,
         t.top5 + if i ≤ 4 then 1 else 0, t.top10 + if i ≤ 9 then 1 else 0,
         t.topInf + 1⟩) ∧
    (List.findIdx? (fun q => q == c) qids = none → mentionStep alg_qids t (m, c) = t) ∧
    (∀ qids' : List String,
      List.findIdx? (fun q => q == c) qids' = List.findIdx? (fun q => q == c) qids →
      scoreLoop c qids' 0 t = scoreLoop c qids 0 t) := by
  have hstep : mentionStep alg_qids t (m, c) = scoreLoop c qids 0 t := by
    simp [mentionStep, hq, hne]
  refine ⟨?_, ?_, ?_⟩
  · intro i hi
    rw [hstep, scoreLoop_eq_findIdx, hi]
    exact tallyAtRank_eq i t
  · intro hn
    rw [hstep, scoreLoop_eq_findIdx, hn]
  · intro qids' hsame
    rw [scoreLoop_eq_findIdx, scoreLoop_eq_findIdx, hsame]

/-- Witness for C2: in the list `["a", "b"]` the correct identifier
`"b"` is first found at rank 1, so only top-3, top-5, top-10 and
top-inf are incremented. -/
theorem mentionStep_first_match_witness :
    mentionStep [("m", ["a", "b"])] ⟨0, 0, 0, 0, 0⟩ ("m", "b") = ⟨0, 1, 1, 1, 1⟩ := by
  have h := (mentionStep_first_match [("m", ["a", "b"])] "m" "b" ⟨0, 0, 0, 0, 0⟩
    ["a", "b"] rfl (by decide)).1 1 (by decide)
  simpa using h

/-- C3: on an empty correct-label map `get_topk_accuracy` divides each
counter by `total_mentions = 0`, which raises a ZeroDivisionError
instead of reporting 0.00 or skipping the report. -/
theorem getTopkAccuracy_empty_raises (alg_qids : List (String × List String)) :
    getTopkAccuracy [] alg_qids = Except.error "ZeroDivisionError" := rfl

/-- C5: all five ratios of `get_topk_accuracy` have the number of
mentions of the correct-label map as denominator, and a mention whose
predicted entry is missing or an empty list leaves every counter
unchanged while still being counted in that denominator. -/
theorem getTopkAccuracy_denominator (data_to_qid : List (String × String))
    (alg_qids : List (String × List String)) (h : data_to_qid ≠ []) :
    getTopkAccuracy data_to_qid alg_qids =
      Except.ok (((getTopkCounts data_to_qid alg_qids).top1 : ℚ) / (data_to_qid.length : ℚ),
        ((getTopkCounts data_to_qid alg_qids).top3 : ℚ) / (data_to_qid.length : ℚ),
        ((getTopkCounts data_to_qid alg_qids).top5 : ℚ) / (data_to_qid.length : ℚ),
        ((getTopkCounts data_to_qid alg_qids).top10 : ℚ) / (data_to_qid.length : ℚ),
        ((getTopkCounts data_to_qid alg_qids).topInf : ℚ) / (data_to_qid.length : ℚ)) ∧
    ∀ (m c : String) (t : Tally),
      List.lookup m alg_qids = none ∨ List.lookup m alg_qids = some [] →
      mentionStep alg_qids t (m, c) = t := by
  constructor
  · have hlen : data_to_qid.length ≠ 0 := by
      cases data_to_qid with
      | nil => exact absurd rfl h
      | cons p l => simp
    simp [getTopkAccuracy, hlen]
  · intro m c t hmc
    rcases hmc with hnone | hempty
    · simp [mentionStep, hnone]
    · simp [mentionStep, hempty]

/-- Witness for C5: one mention, no prediction entry — the report
divides by one and the per-mention step is a no-op. -/
theorem getTopkAccuracy_denominator_witness :
    getTopkAccuracy [("a", "Q1")] [] = Except.ok (0, 0, 0, 0, 0) ∧
    mentionStep [] ⟨0, 0, 0, 0, 0⟩ ("a", "Q1") = ⟨0, 0, 0, 0, 0⟩ := by
  have h := getTopkAccuracy_denominator [("a", "Q1")] [] (by decide)
  constructor
  · rw [h.1]
    norm_num [getTopkCounts, mentionStep]
  · exact h.2 "a" "Q1" ⟨0, 0, 0, 0, 0⟩ (Or.inl rfl)

/-! Lemmas about list folds used by the combination generator and the
candidate aggregation loops. -/

theorem foldl_append_singleton {α β : Type} (f : α → β) :
    ∀ (l : List α) (acc : List β),
      l.foldl (fun c i => c ++ [f i]) acc = acc ++ l.map f
  | [], acc => by simp
  | x :: l, acc => by
    simp [foldl_append_singleton f l (acc ++ [f x])]

theorem foldl_append_flatMap {α β : Type} (g : α → List β) :
    ∀ (l : List α) (q : List β),
      l.foldl (fun acc c => acc ++ g c) q = q ++ l.flatMap g
  | [], q => by simp
  | x :: l, q => by
    simp [foldl_append_flatMap g l (q ++ g x)]

theorem getDataCombinations_eq_map (data : List String) :
    getDataCombinations data =
      [joinSp data]
        ++ (List.range' 1 (data.length - 1)).map
          (fun i => joinSp (data.take (data.length - i)))
        ++ (List.range' 1 (data.length - 1)).map (fun i => joinSp (data.drop i)) := by
  simp only [getDataCombinations]
  rw [foldl_append_singleton, foldl_append_singleton]

/-! Claim on the phrase-combination generator. -/

/-- C6: for a non-empty token sequence of length `n`,
`get_data_combinations` returns the full joined phrase first, then the
proper left-truncations (dropping `i = 1..n-1` trailing tokens, longest
remaining fragment first), then the proper right-truncations (dropping
`i = 1..n-1` leading tokens, longest first), for a total of exactly
`2n - 1` entries (which is one entry when `n = 1`). -/
theorem getDataCombinations_spec (data : List String) (h : data ≠ []) :
    getDataCombinations data =
      [joinSp data]
        ++ (List.range' 1 (data.length - 1)).map
          (fun i => joinSp (data.take (data.length - i)))
        ++ (List.range' 1 (data.length - 1)).map (fun i => joinSp (data.drop i)) ∧
    (getDataCombinations data).length = 2 * data.length - 1 := by
  refine ⟨getDataCombinations_eq_map data, ?_⟩
  rw [getDataCombinations_eq_map data]
  have hlen : data.length ≠ 0 := by
    cases data with
    | nil => exact absurd rfl h
    | cons p l => simp
  simp [List.length_append, List.length_map, List.length_range']
  omega

/-- Witness for C6 on the two-token sequence `["a", "b"]`. -/
theorem getDataCombinations_spec_witness :
    getDataCombinations ["a", "b"] = ["a b", "a", "b"] ∧
    (getDataCombinations ["a", "b"]).length = 3 := by
  have h := getDataCombinations_spec ["a", "b"] (by decide)
  refine ⟨?_, ?_⟩
  · rw [h.1]; decide
  · rw [h.2]; decide

/-! Claim on the degenerate combination input. -/

/-- C10: on the empty token sequence `get_data_combinations` returns
the one-element list holding the empty string, and consequently, when
no fragment of a mention is valid, the sorted-valid-fragment step of
`get_wikidata_qids` issues exactly one backend query with the empty
string, whose result closes the candidate list. -/
theorem getDataCombinations_nil_empty_query (api : String → List String) (data : String)
    (h : ∀ frag ∈ splitSp data, api frag = []) :
    getDataCombinations [] = [""] ∧
    getWikidataQids api data =
      [(data, api data ++ (getDataCombinations (splitSp data)).flatMap api ++ api "")] := by
  refine ⟨rfl, ?_⟩
  have hdict : fragDict api (splitSp data) = [] := by
    have aux : ∀ (l : List String), (∀ f ∈ l, api f = []) →
        ∀ d, fragDictAux api l d = d := by
      intro l
      induction l with
      | nil => intro _ d; rfl
      | cons f fs ih =>
        intro hl d
        have hf : api f = [] := hl f (List.mem_cons_self f fs)
        simp only [fragDictAux, hf]
        exact ih (fun g hg => hl g (List.mem_cons_of_mem f hg)) d
    exact aux (splitSp data) h []
  simp only [getWikidataQids, wikidataCandidates, hdict, sortByValLen, List.map_nil,
    foldl_append_flatMap]
  have hnil : getDataCombinations ([] : List String) = [""] := rfl
  rw [hnil]
  simp [List.append_assoc]

/-- Witness for C10: a backend that only answers the empty-string query
still contributes exactly that answer through the
sorted-valid-fragment step. -/
theorem getDataCombinations_nil_empty_query_witness :
    getWikidataQids (fun s => if s = "" then ["Q1"] else []) "x y" =
      [("x y", (fun s : String => if s = "" then ["Q1"] else []) "x y"
        ++ (getDataCombinations (splitSp "x y")).flatMap
          (fun s => if s = "" then ["Q1"] else [])
        ++ (fun s : String => if s = "" then ["Q1"] else []) "")] :=
  (getDataCombinations_nil_empty_query (fun s => if s = "" then ["Q1"] else []) "x y"
    (by decide)).2

/-! Claim on the few-shot scorer. -/

/-- C1: the accuracy reported by `run_few_shot` does not equal the
fraction of mentions whose predicted entity name translates to the
correct catalog identifier: the code increments `num_correct` when
`correct_eid != predicted_eid`, so a perfect prediction reports 0
while the specified fraction is 1, and an untranslatable predicted
name (no candidate) reports 1 while the specified fraction is 0. -/
theorem runFewShot_counts_mismatches :
    runFewShotAccuracy [("nginx", "1")] [("nginx", "1")] [["nginx"]] = Except.ok 0 ∧
    specFewShotHits [("nginx", "1")] [("nginx", "1")] [["nginx"]] = 1 ∧
    runFewShotAccuracy [("m", "1")] [] [["x"]] = Except.ok 1 ∧
    specFewShotHits [("m", "1")] [] [["x"]] = 0 := by
  refine ⟨?_, rfl, ?_, rfl⟩
  · show Except.ok ((0 : ℚ) / (1 : ℚ)) = Except.ok 0
    norm_num
  · show Except.ok ((1 : ℚ) / (1 : ℚ)) = Except.ok 1
    norm_num

/-! Claim on zero-shot error handling. -/

/-- C4: a transport failure of the batched entity-linking call is
recovered as an empty candidate map and the exception itself is not
propagated, but on a non-empty test set the zero-shot run does not
finish: after printing the three accuracy reports, the diagnostic loop
accesses `elctx_qids[data]` on the empty map and raises a KeyError. -/
theorem runZeroShot_elctx_failure (data_to_qid : List (String × String))
    (api : String → List String) (h : data_to_qid ≠ []) :
    runEntityLinking data_to_qid none = Except.ok [] ∧
    runZeroShot data_to_qid none none api = Except.error "KeyError" := by
  obtain ⟨p, rest, rfl⟩ := List.exists_cons_of_ne_nil h
  exact ⟨rfl, rfl⟩

/-- Witness for C4 on a one-mention test set. -/
theorem runZeroShot_elctx_failure_witness :
    runEntityLinking [("a", "Q1")] none = Except.ok [] ∧
    runZeroShot [("a", "Q1")] none none (fun _ => []) = Except.error "KeyError" :=
  runZeroShot_elctx_failure [("a", "Q1")] (fun _ => []) (by decide)

/-! Lemmas about dict insertion. -/

theorem dictInsert_lookup {β : Type} (k : String) (v : β) :
    ∀ (d : List (String × β)) (k' : String),
      List.lookup k' (dictInsert k v d) = if k' = k then some v else List.lookup k' d
  | [], k' => by
    by_cases h : k' = k
    · have hb : (k' == k) = true := beq_iff_eq.mpr h
      simp [dictInsert, List.lookup_cons, hb, h]
    · have hb : (k' == k) = false := beq_eq_false_iff_ne.mpr h
      simp [dictInsert, List.lookup_cons, hb, h]
  | (a, b) :: d, k' => by
    by_cases ha : a = k
    · have hb : (a == k) = true := beq_iff_eq.mpr ha
      by_cases h : k' = a
      · have hb2 : (k' == a) = true := beq_iff_eq.mpr h
        simp [dictInsert, hb, List.lookup_cons, hb2, h, ha]
      · have hb2 : (k' == a) = false := beq_eq_false_iff_ne.mpr h
        have h' : ¬k' = k := fun hc => h (hc.trans ha.symm)
        simp [dictInsert, hb, List.lookup_cons, hb2, h']
    · have hb : (a == k) = false := beq_eq_false_iff_ne.mpr ha
      by_cases h2 : k' = a
      · have hb2 : (k' == a) = true := beq_iff_eq.mpr h2
        have h' : ¬k' = k := fun hc => ha (h2.symm.trans hc)
        simp [dictInsert, hb, List.lookup_cons, hb2, h']
      · have hb2 : (k' == a) = false := beq_eq_false_iff_ne.mpr h2
        simp [dictInsert, hb, List.lookup_cons, hb2, dictInsert_lookup k v d k']

theorem dictInsert_mem {β : Type} (k : String) (v : β) :
    ∀ (d : List (String × β)) (p : String × β),
      p ∈ dictInsert k v d → p ∈ d ∨ (p.1 = k ∧ p.2 = v)
  | [], p, hp => by
    right
    obtain rfl := List.mem_singleton.mp hp
    exact ⟨rfl, rfl⟩
  | (a, b) :: d, p, hp => by
    by_cases ha : a = k
    · have hb : (a == k) = true := beq_iff_eq.mpr ha
      simp only [dictInsert, hb, if_true] at hp
      rcases List.mem_cons.mp hp with rfl | hd
      · exact Or.inr ⟨ha, rfl⟩
      · exact Or.inl (List.mem_cons_of_mem _ hd)
    · have hb : (a == k) = false := beq_eq_false_iff_ne.mpr ha
      simp only [dictInsert, hb, Bool.false_eq_true, if_false] at hp
      rcases List.mem_cons.mp hp with rfl | hd
      · exact Or.inl (List.mem_cons_self _ _)
      · rcases dictInsert_mem k v d p hd with hpd | hkv
        · exact Or.inl (List.mem_cons_of_mem _ hpd)
        · exact Or.inr hkv

theorem dictInsert_keys_mem {β : Type} (k : String) (v : β) :
    ∀ (d : List (String × β)) (k' : String),
      k' ∈ (dictInsert k v d).map (fun p => p.1) ↔
        k' ∈ d.map (fun p => p.1) ∨ k' = k
  | [], k' => by simp [dictInsert]
  | (a, b) :: d, k' => by
    by_cases ha : a = k
    · have hb : (a == k) = true := beq_iff_eq.mpr ha
      subst ha
      simp only [dictInsert, hb, if_true, List.map_cons, List.mem_cons]
      tauto
    · have hb : (a == k) = false := beq_eq_false_iff_ne.mpr ha
      simp only [dictInsert, hb, Bool.false_eq_true, if_false, List.map_cons,
        List.mem_cons, dictInsert_keys_mem k v d k']
      tauto

theorem dictInsert_keys_nodup {β : Type} (k : String) (v : β) :
    ∀ (d : List (String × β)), (d.map (fun p => p.1)).Nodup →
      ((dictInsert k v d).map (fun p => p.1)).Nodup
  | [], _ => by simp [dictInsert]
  | (a, b) :: d, hd => by
    rw [List.map_cons] at hd
    rcases List.nodup_cons.mp hd with ⟨hane, hdd⟩
    by_cases ha : a = k
    · have hb : (a == k) = true := beq_iff_eq.mpr ha
      simp only [dictInsert, hb, if_true, List.map_cons]
      exact List.nodup_cons.mpr ⟨hane, hdd⟩
    · have hb : (a == k) = false := beq_eq_false_iff_ne.mpr ha
      simp only [dictInsert, hb, Bool.false_eq_true, if_false, List.map_cons]
      refine List.nodup_cons.mpr ⟨?_, dictInsert_keys_nodup k v d hdd⟩
      rw [dictInsert_keys_mem k v d a]
      rintro (hmem | rfl)
      · exact hane hmem
      · exact ha rfl

/-! Lemmas about the valid-fragment dict. -/

theorem fragDictAux_entries (api : String → List String) :
    ∀ (l : List String) (d : List (String × List String)),
      (∀ p ∈ d, p.2 = api p.1 ∧ p.2 ≠ []) →
      ∀ p ∈ fragDictAux api l d, p.2 = api p.1 ∧ p.2 ≠ []
  | [], _, hd, p, hp => hd p hp
  | f :: fs, d, hd, p, hp => by
    simp only [fragDictAux] at hp
    by_cases hf : api f = []
    · simp only [hf, ne_eq, not_true_eq_false, if_false] at hp
      exact fragDictAux_entries api fs d hd p hp
    · simp only [ne_eq, hf, not_false_eq_true, if_true] at hp
      refine fragDictAux_entries api fs (dictInsert f (api f) d) ?_ p hp
      intro q hq
      rcases dictInsert_mem f (api f) d q hq with hqd | ⟨h1, h2⟩
      · exact hd q hqd
      · exact ⟨by rw [h2, h1], by rw [h2]; exact hf⟩

theorem fragDictAux_keys_mem (api : String → List String) :
    ∀ (l : List String) (d : List (String × List String)) (k : String),
      k ∈ (fragDictAux api l d).map (fun p => p.1) ↔
        k ∈ d.map (fun p => p.1) ∨ (k ∈ l ∧ api k ≠ [])
  | [], d, k => by simp [fragDictAux]
  | f :: fs, d, k => by
    simp only [fragDictAux]
    by_cases hf : api f = []
    · simp only [hf, ne_eq, not_true_eq_false, if_false,
        fragDictAux_keys_mem api fs d k, List.mem_cons]
      constructor
      · rintro (hd | ⟨hfs, hne⟩)
        · exact Or.inl hd
        · exact Or.inr ⟨Or.inr hfs, hne⟩
      · rintro (hd | ⟨rfl | hfs, hne⟩)
        · exact Or.inl hd
        · exact absurd hf hne
        · exact Or.inr ⟨hfs, hne⟩
    · simp only [ne_eq, hf, not_false_eq_true, if_true,
        fragDictAux_keys_mem api fs (dictInsert f (api f) d) k,
        dictInsert_keys_mem f (api f) d k, List.mem_cons]
      constructor
      · rintro ((hd | rfl) | ⟨hfs, hne⟩)
        · exact Or.inl hd
        · exact Or.inr ⟨Or.inl rfl, hf⟩
        · exact Or.inr ⟨Or.inr hfs, hne⟩
      · rintro (hd | ⟨rfl | hfs, hne⟩)
        · exact Or.inl (Or.inl hd)
        · exact Or.inl (Or.inr rfl)
        · exact Or.inr ⟨hfs, hne⟩

theorem fragDictAux_keys_nodup (api : String → List String) :
    ∀ (l : List String) (d : List (String × List String)),
      (d.map (fun p => p.1)).Nodup →
      ((fragDictAux api l d).map (fun p => p.1)).Nodup
  | [], _, hd => hd
  | f :: fs, d, hd => by
    simp only [fragDictAux]
    by_cases hf : api f = []
    · simp only [hf, ne_eq, not_true_eq_false, if_false]
      exact fragDictAux_keys_nodup api fs d hd
    · simp only [ne_eq, hf, not_false_eq_true, if_true]
      exact fragDictAux_keys_nodup api fs (dictInsert f (api f) d)
        (dictInsert_keys_nodup f (api f) d hd)

/-! Lemmas about the stable sort on candidate counts. -/

theorem insertByLen_perm (x : String × List String) :
    ∀ l, (insertByLen x l).Perm (x :: l)
  | [] => List.Perm.refl _
  | y :: ys => by
    simp only [insertByLen]
    by_cases h : y.2.length ≤ x.2.length
    · simp only [h, if_true]
      exact ((insertByLen_perm x ys).cons y).trans (List.Perm.swap x y ys)
    · simp [h]

theorem sortByValLen_perm : ∀ l, (sortByValLen l).Perm l
  | [] => List.Perm.refl _
  | x :: xs => (insertByLen_perm x (sortByValLen xs)).trans ((sortByValLen_perm xs).cons x)

theorem insertByLen_pairwise (x : String × List String) :
    ∀ l, l.Pairwise (fun a b => a.2.length ≤ b.2.length) →
      (insertByLen x l).Pairwise (fun a b => a.2.length ≤ b.2.length)
  | [], _ => by simp [insertByLen]
  | y :: ys, h => by
    rcases List.pairwise_cons.mp h with ⟨hy, hys⟩
    simp only [insertByLen]
    by_cases hle : y.2.length ≤ x.2.length
    · simp only [hle, if_true]
      refine List.pairwise_cons.mpr ⟨?_, insertByLen_pairwise x ys hys⟩
      intro z hz
      rcases List.mem_cons.mp ((insertByLen_perm x ys).mem_iff.mp hz) with rfl | hzys
      · exact hle
      · exact hy z hzys
    · push_neg at hle
      simp only [Nat.not_le.mpr hle, if_false]
      refine List.pairwise_cons.mpr ⟨?_, h⟩
      intro z hz
      rcases List.mem_cons.mp hz with rfl | hzys
      · exact Nat.le_of_lt hle
      · exact le_trans (Nat.le_of_lt hle) (hy z hzys)

theorem sortByValLen_pairwise :
    ∀ l, (sortByValLen l).Pairwise (fun a b => a.2.length ≤ b.2.length)
  | [] => List.Pairwise.nil
  | x :: xs => insertByLen_pairwise x _ (sortByValLen_pairwise xs)

/-! Claim on the autocomplete candidate aggregation. -/

/-- C7: the ranked list `get_wikidata_qids` builds for a mention is
exactly the concatenation, in order, of the exact-mention candidates,
the candidates of each combination over all tokens (in combination
order), and the candidates of each combination over the valid
fragments reordered ascending by candidate count, with duplicates
never removed; `valid` here is that reordered fragment list. -/
theorem getWikidataQids_concat (api : String → List String) (data : String) :
    ∃ valid : List String,
      valid.Nodup ∧
      (∀ f, f ∈ valid ↔ f ∈ splitSp data ∧ api f ≠ []) ∧
      valid.Pairwise (fun a b => (api a).length ≤ (api b).length) ∧
      getWikidataQids api data =
        [(data, api data ++ (getDataCombinations (splitSp data)).flatMap api
          ++ (getDataCombinations valid).flatMap api)] := by
  refine ⟨(sortByValLen (fragDict api (splitSp data))).map (fun p => p.1), ?_, ?_, ?_, ?_⟩
  case _ =>
    have hperm := (sortByValLen_perm (fragDict api (splitSp data))).map (fun p => p.1)
    exact hperm.nodup_iff.mpr (fragDictAux_keys_nodup api (splitSp data) [] (by simp))
  case _ =>
    intro f
    have hperm := (sortByValLen_perm (fragDict api (splitSp data))).map (fun p => p.1)
    rw [hperm.mem_iff]
    simpa [fragDict] using fragDictAux_keys_mem api (splitSp data) [] f
  case _ =>
    have hentries : ∀ p ∈ sortByValLen (fragDict api (splitSp data)), p.2 = api p.1 :=
      fun p hp => (fragDictAux_entries api (splitSp data) [] (by simp) p
        ((sortByValLen_perm _).mem_iff.mp hp)).1
    have hs : (sortByValLen (fragDict api (splitSp data))).Pairwise
        (fun a b => (api a.1).length ≤ (api b.1).length) := by
      refine (sortByValLen_pairwise _).imp_of_mem ?_
      intro a b ha hb hab
      rw [← hentries a ha, ← hentries b hb]
      exact hab
    exact List.pairwise_map.mpr hs
  case _ =>
    simp only [getWikidataQids, wikidataCandidates, fragDict, foldl_append_flatMap]

/-! Claim on result-map totality. -/

theorem lookup_merge (api : String → List String) :
    ∀ (keys : List String) (acc : List (String × List String)) (m : String),
      (m ∈ keys ∨ (List.lookup m acc).isSome = true) →
      (List.lookup m ((keys.map (getWikidataQids api)).foldl
        (fun acc item => item.foldl (fun acc2 p => dictInsert p.1 p.2 acc2) acc)
        acc)).isSome = true
  | [], acc, m, hm => by
    rcases hm with h | h
    · exact absurd h (List.not_mem_nil m)
    · simpa using h
  | k :: ks, acc, m, hm => by
    simp only [List.map_cons, List.foldl_cons]
    have hinner : (getWikidataQids api k).foldl (fun acc2 p => dictInsert p.1 p.2 acc2) acc
        = dictInsert k (wikidataCandidates api k) acc := rfl
    rw [hinner]
    apply lookup_merge api ks _ m
    rcases hm with h | h
    · rcases List.mem_cons.mp h with rfl | hks
      · right
        rw [dictInsert_lookup]
        simp
      · left
        exact hks
    · right
      rw [dictInsert_lookup]
      by_cases he : m = k <;> simp [he, h]

/-- C9: `run_wikidata_autocomplete` produces a map with an entry
(possibly an empty list) for every input mention, so no lookup of an
input mention in it can fail; by contrast, the entity-linking result
map can lack entries for all mentions (for instance after a transport
failure it is empty while the input is not). -/
theorem runWikidataAutocomplete_total (api : String → List String)
    (data_to_qid : List (String × String)) (m q : String)
    (hm : (m, q) ∈ data_to_qid) :
    (List.lookup m (runWikidataAutocomplete api data_to_qid)).isSome = true ∧
    ∃ (d : List (String × String)) (resp : Option ELResponse) (m' q' : String)
      (el : List (String × List String)),
      (m', q') ∈ d ∧ runEntityLinking d resp = Except.ok el ∧
      List.lookup m' el = none := by
  constructor
  · have hkey : m ∈ data_to_qid.map (fun p => p.1) := List.mem_map.mpr ⟨(m, q), hm, rfl⟩
    exact lookup_merge api (data_to_qid.map (fun p => p.1)) [] m (Or.inl hkey)
  · exact ⟨[("a", "Q1")], none, "a", "Q1", [], List.mem_singleton.mpr rfl, rfl, rfl⟩

/-- Witness for C9 on a one-mention test set with a silent backend. -/
theorem runWikidataAutocomplete_total_witness :
    (List.lookup "a" (runWikidataAutocomplete (fun _ => []) [("a", "Q1")])).isSome = true :=
  (runWikidataAutocomplete_total (fun _ => []) [("a", "Q1")] "a" "Q1" (by decide)).1

end RunTests
